import Mathlib

/-!
A shallow embedding of `featureReport.py` (flatironinstitute/fi-slurm-utils):
the feature/GRES extractors, the boolean-expression qualification step, the
state/feature/GRES-type aggregation buckets, and the per-bucket
summarization, together with theorems checking the specification's claims
about them.

Python strings are modelled as `List Char`; Python's fallible operations
(dictionary lookup out of domain, list indexing out of range, regex
`.group` on a failed search, use of a never-assigned loop variable) are
modelled with `Option`, `none` standing for a raised exception.
-/

namespace FeatureReport

/-- Python `str.split(sep)` for a one-character separator: always returns at
least one (possibly empty) fragment; splitting the empty string yields one
empty fragment. -/
def pySplit (sep : Char) : List Char → List (List Char)
  | [] => [[]]
  | c :: rest =>
    if c = sep then [] :: pySplit sep rest
    else
      match pySplit sep rest with
      | t :: ts => (c :: t) :: ts
      | [] => [[c]]

/-- Fuelled core of Python `str.replace`: a single left-to-right scan; at a
match of `pat` the replacement `rep` is emitted and scanning resumes after
the matched fragment, without rescanning `rep` (Python semantics, so a
removal can concatenate surrounding text into a fresh occurrence of `pat`).
The fuel is the length of the remaining text, which suffices because each
step consumes at least one character when `pat` is nonempty. -/
def replaceAllAux (pat rep : List Char) : Nat → List Char → List Char
  | _, [] => []
  | 0, s => s
  | fuel + 1, c :: cs =>
    if pat.isPrefixOf (c :: cs) ∧ pat ≠ [] then
      rep ++ replaceAllAux pat rep fuel (List.drop (pat.length - 1) cs)
    else
      c :: replaceAllAux pat rep fuel cs

/-- Python `s.replace(pat, rep)` for a nonempty `pat`. -/
def replaceAll (pat rep s : List Char) : List Char :=
  replaceAllAux pat rep s.length s

/-- Python's substring containment `pat in s`. -/
def hasOccur (pat : List Char) : List Char → Bool
  | [] => pat.isEmpty
  | c :: cs => pat.isPrefixOf (c :: cs) || hasOccur pat cs

/-- The escape text substituted for a minus sign (line 79). -/
def minusEsc : List Char := "___minus___".toList

/-- The escape text substituted for a plus sign (line 79). -/
def plusEsc : List Char := "___plus___".toList

/-- The escape text substituted for a colon (line 79). -/
def colonEsc : List Char := "___colon___".toList

/-- Line 79: the sanitizing substitution applied to the expression text
before it is compiled (minus, then plus, then colon). -/
def escTok (s : List Char) : List Char :=
  replaceAll [':'] colonEsc (replaceAll ['+'] plusEsc (replaceAll ['-'] minusEsc s))

/-- Line 94: the reverse substitution applied to each free-variable name
before the membership test (minus, then plus, then colon). -/
def unescTok (s : List Char) : List Char :=
  replaceAll colonEsc [':'] (replaceAll plusEsc ['+'] (replaceAll minusEsc ['-'] s))

/-- `int` of a nonempty decimal digit string. -/
def digitsToNat (ds : List Char) : Nat :=
  ds.foldl (fun acc c => 10 * acc + (c.toNat - 48)) 0

/-- An anchored match of the regex `gpu:[^:]+:([0-9]+)` (line 120) at the
head of the text, returning `int` of the captured digit group. The greedy
`[^:]+` necessarily extends to the next colon, and the captured `[0-9]+`
is the maximal digit run after it. -/
def gpuMatchAt : List Char → Option Nat
  | 'g' :: 'p' :: 'u' :: ':' :: rest =>
    let t := rest.takeWhile (fun c => c ≠ ':')
    match rest.drop t.length with
    | ':' :: ds =>
      if t = [] then none
      else
        let run := ds.takeWhile Char.isDigit
        if run = [] then none else some (digitsToNat run)
    | _ => none
  | _ => none

/-- `gpuCountRe.search` followed by `int(...group(1))`: the leftmost
position where the pattern matches; `none` models a failed search (whose
`.group(1)` raises). -/
def gpuSearch : List Char → Option Nat
  | [] => none
  | c :: cs =>
    match gpuMatchAt (c :: cs) with
    | some k => some k
    | none => gpuSearch cs

/-- Boolean expressions over token names: the fragment of Python
expressions the script's `compile`/`eval` pipeline evaluates per node. -/
inductive BExp where
  | const (b : Bool)
  | var (v : List Char)
  | band (a b : BExp)
  | bor (a b : BExp)
  | bnot (a : BExp)

/-- Evaluation of a compiled expression under an environment binding each
free-variable name to a boolean (standard short-circuit semantics). -/
def evalB (env : List Char → Bool) : BExp → Bool
  | .const b => b
  | .var v => env v
  | .band a b => evalB env a && evalB env b
  | .bor a b => evalB env a || evalB env b
  | .bnot a => !evalB env a

/-- The free-variable names of an expression (`fexp.co_names`, line 84). -/
def BExp.vars : BExp → List (List Char)
  | .const _ => []
  | .var v => [v]
  | .band a b => a.vars ++ b.vars
  | .bor a b => a.vars ++ b.vars
  | .bnot a => a.vars

/-- Sanitizing the expression text before compilation, seen at the level of
the parsed expression: every free-variable name is escaped. -/
def escapeExp : BExp → BExp
  | .const b => .const b
  | .var v => .var (escTok v)
  | .band a b => .band (escapeExp a) (escapeExp b)
  | .bor a b => .bor (escapeExp a) (escapeExp b)
  | .bnot a => .bnot (escapeExp a)

/-- Lines 94-95: the per-node `locals` binding maps each free-variable name
`f` of the compiled expression to whether its unescaped form is a member of
the node's token set, and the node qualifies when `eval` returns true. -/
def nodeQualifies (fexp : BExp) (ns : List (List Char)) : Bool :=
  evalB (fun f => decide (unescTok f ∈ ns)) fexp

/-- The literal expression text used when no words are supplied (line 73). -/
def trueS : List Char := "True".toList

/-- Lines 72-75: the expression text is the space-join of the argument
words, or the literal `True` when no words were supplied. -/
def effectiveFeatureString (words : List (List Char)) : List Char :=
  if words = [] then trueS else List.intercalate [' '] words

/-- The compiled form of the literal expression `True`. -/
def trueLit : BExp := .const true

/-- The dynamically typed `features` field of a node record: it may be
missing, a bare string, or a list of strings. -/
inductive FeatVal where
  | absent
  | str (s : List Char)
  | list (l : List (List Char))

/-- `getInfoFeatures` (lines 53-56): `n.get('features', [])`, a bare string
is wrapped into a one-element list, and every element is split on commas. -/
def getInfoFeatures : FeatVal → List (List Char)
  | .absent => []
  | .str s => pySplit ',' s
  | .list l => l.flatMap (pySplit ',')

/-- `getInfoGres` (lines 58-61) applied to the node's `gres` list: an empty
list yields `[]`; otherwise each descriptor is split on commas and
`g.split(':', 2)[1]` keeps the second colon-delimited field. `none` models
the `IndexError` raised when a fragment contains no colon (index `[1]` of a
one-element split; the second field of a 2-limited split coincides with the
second field of an unlimited split whenever it exists). -/
def getInfoGres (lgl : List (List Char)) : Option (List (List Char)) :=
  if lgl = [] then some []
  else (lgl.flatMap (pySplit ',')).mapM (fun g => (pySplit ':' g)[1]?)

/-- The node-record fields the script reads (cf. the sample records quoted
in the source). `features` holds the raw comma-separated feature string. -/
structure NodeInfo where
  name : List Char
  features : List Char
  gres : List (List Char)
  gres_used : List (List Char)
  cpus : Nat
  alloc_cpus : Nat
  state : List Char
deriving DecidableEq

/-- Line 86 and line 93: the token set a node is tested against — GRES
tokens in `-g` mode (which can raise), feature tokens otherwise. -/
def tokensOf (gresMode : Bool) (n : NodeInfo) : Option (List (List Char)) :=
  if gresMode then getInfoGres n.gres else some (getInfoFeatures (.str n.features))

/-- Whether a node passes the expression filter (lines 93-95); a node whose
token extraction raises never reaches the test. -/
def qualifies (gresMode : Bool) (fexp : BExp) (n : NodeInfo) : Bool :=
  match tokensOf gresMode n with
  | some ns => nodeQualifies fexp ns
  | none => false

/-- The power-saving suffix marker stripped from states (line 98). -/
def pPOWER : List Char := "+POWER".toList

/-- Line 98: strip the power-saving and reboot-scheduled markers from the
raw state string (first all occurrences of `+POWER`, then all `@`). -/
def normState (s : List Char) : List Char :=
  replaceAll ['@'] [] (replaceAll pPOWER [] s)

/-- The location sentinel skipped when picking the primary feature. -/
def locSentinel : List Char := "location=local".toList

/-- Lines 100-103: the primary feature is `ff[0]`, replaced by `ff[1]` when
`ff[0]` is the sentinel; `none` models the `IndexError` raised when the
sentinel is the only token. -/
def primaryFeature (featStr : List Char) : Option (List Char) :=
  match pySplit ',' featStr with
  | [] => none
  | f :: rest => if f = locSentinel then rest.head? else some f

/-- The claim's primary-feature rule, restated from the specification's
words for comparison with the code's `primaryFeature`: the first
comma-separated token of the raw feature string, unless that token equals
the location sentinel, in which case the second token. -/
def specPrimaryFeature (featStr : List Char) : Option (List Char) :=
  let toks := pySplit ',' featStr
  if toks.head? = some locSentinel then toks[1]? else toks.head?

/-- The three defaultdicts of lines 88-90 as total functions with default
`[]`, together with the key list of `state2hl` (dictionary keys are
created on first access; only `state2hl`'s keys drive the report loop).
Host lists are modelled as the list of pushed node names. -/
structure AggState where
  stateKeys : List (List Char)
  state2hl : List Char → List (List Char)
  state2f02hl : List Char → List Char → List (List Char)
  state2gres2hl : List Char → List Char → List (List Char)

/-- The empty aggregation state. -/
def initAgg : AggState :=
  { stateKeys := []
    state2hl := fun _ => []
    state2f02hl := fun _ _ => []
    state2gres2hl := fun _ _ => [] }

/-- Lines 92-109: one iteration of the main loop over the node snapshot.
`none` models an uncaught exception (malformed GRES text during token
extraction, or a sentinel feature string with no second token). In the
non-GRES branch the loop runs over `set(getInfoGres(n))`, pushing the node
once into each bucket of a distinct nonempty GRES token. -/
def processNode (gresMode : Bool) (fexp : BExp) (st : AggState) (n : NodeInfo) :
    Option AggState :=
  match tokensOf gresMode n with
  | none => none
  | some ns =>
    if nodeQualifies fexp ns then
      let s := normState n.state
      let st1 : AggState :=
        { st with
          stateKeys := if s ∈ st.stateKeys then st.stateKeys else st.stateKeys ++ [s]
          state2hl := fun s' =>
            if s' = s then st.state2hl s' ++ [n.name] else st.state2hl s' }
      match primaryFeature n.features with
      | none => none
      | some f =>
        let st2 : AggState :=
          { st1 with
            state2f02hl := fun s' f' =>
              if s' = s ∧ f' = f then st1.state2f02hl s' f' ++ [n.name]
              else st1.state2f02hl s' f' }
        if gresMode then
          some st2
        else
          match getInfoGres n.gres with
          | none => none
          | some gs =>
            some { st2 with
                   state2gres2hl := fun s' g' =>
                     if s' = s ∧ g' ∈ gs ∧ g' ≠ [] then st2.state2gres2hl s' g' ++ [n.name]
                     else st2.state2gres2hl s' g' }
    else
      some st

/-- The whole qualification-and-bucketing loop (lines 92-109) over a node
snapshot. -/
def runAgg (gresMode : Bool) (fexp : BExp) (nodes : List NodeInfo) : Option AggState :=
  nodes.foldlM (processNode gresMode fexp) initAgg

/-- The qualifying nodes of a snapshot. -/
def qualNodes (gresMode : Bool) (fexp : BExp) (nodes : List NodeInfo) : List NodeInfo :=
  nodes.filter (fun n => qualifies gresMode fexp n)

/-- The fields of a running job that `summarize_hl` reads. -/
structure JobInfo where
  partition : List Char
  user_id : Nat

/-- The ambient data `summarize_hl` consults: the node dictionary, the
host-to-running-jobs map `h2jj` (lines 23-31), and the user directory
`uid2user` (line 122). -/
structure Env where
  nodesMap : List Char → Option NodeInfo
  h2jj : List Char → List JobInfo
  uid2user : Nat → Option (List Char)

/-- The `-s` breakdown dimension. -/
inductive CountBy where
  | partition
  | user

/-- `get_user` (lines 128-134): resolve the job's user id, falling back to
a synthetic `user_<id>` label when the id is unknown (the failed lookup
also prints a warning to standard error; only the value matters
downstream). -/
def userLabel (env : Env) (uid : Nat) : List Char :=
  match env.uid2user uid with
  | some u => u
  | none => "user_".toList ++ Nat.toDigits 10 uid

/-- The sub-tally key of a job under the selected breakdown (line 140). -/
def cbKey (env : Env) : CountBy → JobInfo → List Char
  | .partition, j => j.partition
  | .user, j => userLabel env j.user_id

/-- The running totals of `summarize_hl` (line 136-137), together with the
values of the Python loop variables `gres` and `gres_used`, which leak
across iterations of the host loop (`none` meaning never assigned), and
the diagnostics printed to standard error, recorded by offending host
name. -/
structure SumSt where
  cpus : Nat
  cpus_allocated : Nat
  gpus : Nat
  gpus_allocated : Nat
  cb2jc : List Char → Nat
  prevGres : Option (List Char)
  prevGresUsed : Option (List Char)
  errlog : List (List Char)

/-- The initial totals of a `summarize_hl` call. -/
def initSum : SumSt :=
  { cpus := 0
    cpus_allocated := 0
    gpus := 0
    gpus_allocated := 0
    cb2jc := fun _ => 0
    prevGres := none
    prevGresUsed := none
    errlog := [] }

/-- The token whose prefix selects a GRES descriptor (lines 151, 153). -/
def gpuS : List Char := "gpu".toList

/-- Feature substring signalling an AMD GPU (line 146). -/
def amdgpuS : List Char := "amdgpu".toList

/-- Feature substring signalling a Grace Hopper node (line 146). -/
def ghS : List Char := "gh".toList

/-- Line 146: the GPU-presence test is Python substring containment on the
raw feature string, not membership in the comma-split token set. -/
def gpuGate (n : NodeInfo) : Bool :=
  hasOccur gpuS n.features || hasOccur amdgpuS n.features || hasOccur ghS n.features

/-- The Python idiom `for g in lst:` / `if g.startswith('gpu'): break`
(lines 150-153): after the loop the variable holds the first matching
element, else the last element of a nonempty list, else (empty list) it
keeps its previous value — `none` meaning it was never assigned, so that
using it raises `NameError`. -/
def pickSel (prev : Option (List Char)) (l : List (List Char)) : Option (List Char) :=
  match l.find? (fun g => gpuS.isPrefixOf g) with
  | some g => some g
  | none =>
    match l.getLast? with
    | some g => some g
    | none => prev

/-- Lines 139-142: when a breakdown is requested, bump the sub-tally key
of every running job on this host; otherwise leave the totals alone. -/
def cbStep (env : Env) (countBy : Option CountBy) (st : SumSt) (h : List Char) : SumSt :=
  match countBy with
  | none => st
  | some cb =>
    { st with
      cb2jc := (env.h2jj h).foldl
        (fun m j => fun k => if k = cbKey env cb j then m k + 1 else m k) st.cb2jc }

/-- Lines 138-158: one iteration of the `summarize_hl` loop over the
bucket's hosts. `none` models an uncaught exception: a host missing from
the node dictionary, or the total-side `int(gpuCountRe.search(gres).group(1))`
(line 154, not inside `try`) failing because the search found nothing or
`gres` was never assigned. The allocated side (line 156) is inside `try`,
so its failures append a diagnostic naming the host to the error log and
contribute nothing. -/
def processHost (env : Env) (countBy : Option CountBy) (st : SumSt) (h : List Char) :
    Option SumSt :=
  let st0 := cbStep env countBy st h
  match env.nodesMap h with
  | none => none
  | some node =>
    let st1 :=
      { st0 with
        cpus := st0.cpus + node.cpus
        cpus_allocated := st0.cpus_allocated + node.alloc_cpus }
    if gpuGate node then
      let gsel := pickSel st1.prevGres node.gres
      let gusel := pickSel st1.prevGresUsed node.gres_used
      let st2 := { st1 with prevGres := gsel, prevGresUsed := gusel }
      match gsel with
      | none => none
      | some g =>
        match gpuSearch g with
        | none => none
        | some k =>
          let st3 := { st2 with gpus := st2.gpus + k }
          match gusel with
          | none => some { st3 with errlog := st3.errlog ++ [h] }
          | some gu =>
            match gpuSearch gu with
            | some ku => some { st3 with gpus_allocated := st3.gpus_allocated + ku }
            | none => some { st3 with errlog := st3.errlog ++ [h] }
    else
      some st1

/-- `summarize_hl` (lines 124-159) over a bucket's host list. -/
def summarize_hl (env : Env) (countBy : Option CountBy) (hl : List (List Char)) :
    Option SumSt :=
  hl.foldlM (processHost env countBy) initSum

/-- `pyslurm` hostlist `uniq`: remove duplicate entries (the library also
sorts; ordering is irrelevant to every count and total computed from the
list, so it is omitted from the model). -/
def uniq (l : List (List Char)) : List (List Char) := l.dedup

/-- The reporting step applied to every bucket (lines 168-171, 186-190,
194-197): `hl.uniq()`, then the count `hl.count()`, then `summarize_hl`
over the deduplicated member list. -/
def bucketReport (env : Env) (countBy : Option CountBy) (hl : List (List Char)) :
    Option (Nat × SumSt) :=
  match summarize_hl env countBy (uniq hl) with
  | none => none
  | some sm => some ((uniq hl).length, sm)

/-- Lines 166-170: the emitted grand total accumulates the post-`uniq`
count of every state bucket (the code visits states in sorted order, which
does not affect the sum). -/
def totalNodes (agg : AggState) : Nat :=
  (agg.stateKeys.map (fun s => (uniq (agg.state2hl s)).length)).sum

/-- A node dictionary built from a node list, keyed by name. -/
def mkNodesMap (l : List NodeInfo) : List Char → Option NodeInfo :=
  fun h => l.find? (fun n => n.name == h)

/-- Sample node `workergpu046`, quoted in the source. -/
def node046 : NodeInfo :=
  { name := "workergpu046".toList
    features := "gpu,skylake,v100".toList
    gres := ["gpu:v100-16gb:2(S:0-1)".toList]
    gres_used := ["gpu:v100-16gb:0(IDX:N/A)".toList]
    cpus := 40
    alloc_cpus := 0
    state := "IDLE".toList }

/-- Sample node `worker5010`, quoted in the source. -/
def node5010 : NodeInfo :=
  { name := "worker5010".toList
    features := "rome,ib".toList
    gres := []
    gres_used := ["gpu:0".toList]
    cpus := 128
    alloc_cpus := 48
    state := "MIXED".toList }

/-- A GPU node whose in-use descriptor fails the count pattern (the shape
of `worker5010`'s `gres_used` on a GPU-signalling node). -/
def nodeSkip : NodeInfo :=
  { name := "workergpu099".toList
    features := "gpu,cascadelake".toList
    gres := ["gpu:v100s-32gb:4".toList]
    gres_used := ["gpu:0".toList]
    cpus := 48
    alloc_cpus := 12
    state := "MIXED".toList }

/-- A node with no GPU feature token whose raw feature string nevertheless
contains `gh` as a substring. -/
def nodeHigh : NodeInfo :=
  { name := "workerhigh01".toList
    features := "highmem".toList
    gres := ["gpu:a100:3(S:0)".toList]
    gres_used := ["gpu:a100:1(IDX:0)".toList]
    cpus := 10
    alloc_cpus := 2
    state := "IDLE".toList }

/-- A node whose raw state recombines into a fresh `+POWER` occurrence
under the single-pass removal. -/
def nodePow : NodeInfo :=
  { name := "workerpow01".toList
    features := "rome".toList
    gres := []
    gres_used := []
    cpus := 4
    alloc_cpus := 0
    state := "+POW+POWERER".toList }

/-- An environment over the sample nodes, with no running jobs and an
empty user directory. -/
def envSample : Env :=
  { nodesMap := mkNodesMap [node046, node5010, nodeSkip, nodeHigh]
    h2jj := fun _ => []
    uid2user := fun _ => none }

/-- A small sample snapshot. -/
def sampleNodes : List NodeInfo := [node046, node5010]

/-- The aggregation state produced from the sample snapshot with the
constant-true expression in feature mode. -/
def sampleAgg : AggState := (runAgg false trueLit sampleNodes).getD initAgg

/-- The `IDLE` state key. -/
def idleS : List Char := "IDLE".toList

/-- The aggregation state after processing the single sample node
`workergpu046`. -/
def st046 : AggState := (processNode false trueLit initAgg node046).getD initAgg

/-- The summarization state after one host step on `workergpu046`. -/
def sum046 : SumSt := (processHost envSample none initSum node046.name).getD initSum

/-- The summarization state after one host step on `workergpu099` (whose
in-use descriptor fails the count pattern). -/
def sumSkip : SumSt := (processHost envSample none initSum nodeSkip.name).getD initSum

/-- The bucket report of the sample `IDLE` state bucket. -/
def report046 : Nat × SumSt :=
  (bucketReport envSample none (sampleAgg.state2hl idleS)).getD (0, initSum)

/-- A token whose text contains a literal escape marker, so that the
escape/unescape round trip corrupts it. -/
def weirdTok : List Char := "a___minus___b".toList

/-- A GRES descriptor fragment containing no colon. -/
def badGres : List Char := "malformed".toList

/-- A well-formed GRES list every fragment of which contains a colon. -/
def goodGresList : List (List Char) :=
  ["gpu:v100-16gb:2(S:0-1)".toList, "gpu:a100:4".toList]

/-! ### Lemmas about the string machinery -/

theorem hasOccur_cons (pat : List Char) (c : Char) (cs : List Char) :
    hasOccur pat (c :: cs) = (pat.isPrefixOf (c :: cs) || hasOccur pat cs) := rfl

theorem hasOccur_cons_false {pat : List Char} {c : Char} {cs : List Char}
    (h : hasOccur pat (c :: cs) = false) :
    pat.isPrefixOf (c :: cs) = false ∧ hasOccur pat cs = false := by
  rw [hasOccur_cons, Bool.or_eq_false_iff] at h
  exact h

theorem hasOccur_of_isPrefixOf {pat s : List Char}
    (h : pat.isPrefixOf s = true) (hp : pat ≠ []) :
    hasOccur pat s = true := by
  cases s with
  | nil =>
    cases pat with
    | nil => exact absurd rfl hp
    | cons a as => simp [List.isPrefixOf] at h
  | cons c cs => simp [hasOccur_cons, h]

/-- A nonempty pattern that does not occur is not replaced: the scan copies
the text unchanged. -/
theorem replaceAllAux_of_no_occur (pat rep : List Char) :
    ∀ (fuel : Nat) (s : List Char), hasOccur pat s = false →
      replaceAllAux pat rep fuel s = s := by
  intro fuel
  induction fuel with
  | zero => intro s _; cases s <;> simp [replaceAllAux]
  | succ fuel ih =>
    intro s h
    cases s with
    | nil => simp [replaceAllAux]
    | cons c cs =>
      obtain ⟨h1, h2⟩ := hasOccur_cons_false h
      simp only [replaceAllAux]
      rw [if_neg]
      · rw [ih cs h2]
      · rintro ⟨hp, -⟩
        rw [h1] at hp
        exact absurd hp (by simp)

theorem replaceAll_of_no_occur {pat s : List Char} (rep : List Char)
    (h : hasOccur pat s = false) :
    replaceAll pat rep s = s :=
  replaceAllAux_of_no_occur pat rep s.length s h

/-- Replacing a single character with nothing is exactly filtering it
out. -/
theorem replaceAllAux_single (c : Char) :
    ∀ (fuel : Nat) (s : List Char), s.length ≤ fuel →
      replaceAllAux [c] [] fuel s = s.filter (fun x => x ≠ c) := by
  intro fuel
  induction fuel with
  | zero =>
    intro s hf
    cases s with
    | nil => simp [replaceAllAux]
    | cons a cs => simp at hf
  | succ fuel ih =>
    intro s hf
    cases s with
    | nil => simp [replaceAllAux]
    | cons a cs =>
      have hcs : cs.length ≤ fuel := by
        simpa using Nat.le_of_succ_le_succ hf
      by_cases hca : c = a
      · subst hca
        simp only [replaceAllAux]
        rw [if_pos ⟨by simp [List.isPrefixOf_cons₂], by simp⟩]
        simp only [List.length_cons, List.length_nil, List.nil_append,
          Nat.zero_add, Nat.sub_self, List.drop_zero]
        rw [ih cs hcs]
        simp
      · simp only [replaceAllAux]
        rw [if_neg]
        · rw [ih cs hcs]
          simp [List.filter_cons, Ne.symm hca]
        · rintro ⟨hp, -⟩
          rw [List.isPrefixOf_cons₂] at hp
          simp only [List.isPrefixOf_nil_left, Bool.and_true, beq_iff_eq] at hp
          exact hca hp

theorem replaceAll_single (c : Char) (s : List Char) :
    replaceAll [c] [] s = s.filter (fun x => x ≠ c) :=
  replaceAllAux_single c s.length s (Nat.le_refl _)

/-- A one-character pattern occurs exactly when the character is a
member. -/
theorem hasOccur_single (c : Char) : ∀ s : List Char, (hasOccur [c] s = true) ↔ c ∈ s := by
  intro s
  induction s with
  | nil => simp [hasOccur]
  | cons a cs ih =>
    rw [hasOccur_cons]
    simp only [List.isPrefixOf_cons₂, List.isPrefixOf_nil_left, Bool.and_true,
      Bool.or_eq_true, beq_iff_eq, ih, List.mem_cons]

/-- The marker removed from state strings has length 6 and pairwise
distinct characters, so no nonempty proper prefix of it completes into an
occurrence across a removal boundary. -/
theorem pPOWER_no_overlap :
    ∀ n < 6, 1 ≤ n → ¬ pPOWER <+: (pPOWER.take n ++ pPOWER) := by decide

theorem isPrefixOf_append_pPOWER_eq_false {t : List Char}
    (h : hasOccur pPOWER t = false) (ht : t ≠ []) :
    pPOWER.isPrefixOf (t ++ pPOWER) = false := by
  by_contra hc
  rw [Bool.not_eq_false, List.isPrefixOf_iff_prefix] at hc
  by_cases hlen : 6 ≤ t.length
  · have h6 : pPOWER.length = 6 := by decide
    have htake := List.prefix_iff_eq_take.mp hc
    rw [h6, List.take_append_of_le_length hlen] at htake
    have hpt : pPOWER.isPrefixOf t = true := by
      rw [List.isPrefixOf_iff_prefix, htake]
      exact List.take_prefix 6 t
    rw [hasOccur_of_isPrefixOf hpt (by decide)] at h
    exact absurd h (by simp)
  · push_neg at hlen
    have htp : t <+: pPOWER :=
      List.prefix_of_prefix_length_le (List.prefix_append t pPOWER) hc
        (by
          have h6 : pPOWER.length = 6 := by decide
          omega)
    have htake := List.prefix_iff_eq_take.mp htp
    have h1 : 1 ≤ t.length := by
      cases t with
      | nil => exact absurd rfl ht
      | cons a as => simp
    exact pPOWER_no_overlap t.length hlen h1 (by rw [← htake]; exact hc)

/-- Stripping a trailing `+POWER` from a base in which the marker does not
occur yields exactly the base. -/
theorem replaceAllAux_strip_pPOWER :
    ∀ (t : List Char) (fuel : Nat), (t ++ pPOWER).length ≤ fuel →
      hasOccur pPOWER t = false →
      replaceAllAux pPOWER [] fuel (t ++ pPOWER) = t := by
  intro t
  induction t with
  | nil =>
    intro fuel hf _
    cases fuel with
    | zero => simp [pPOWER] at hf
    | succ fuel =>
      show replaceAllAux pPOWER [] (fuel + 1)
        ('+' :: 'P' :: 'O' :: 'W' :: 'E' :: 'R' :: []) = []
      simp only [replaceAllAux]
      rw [if_pos ⟨by decide, by decide⟩]
      show replaceAllAux pPOWER [] fuel [] = []
      cases fuel <;> rfl
  | cons a t' ih =>
    intro fuel hf h
    cases fuel with
    | zero => simp [pPOWER] at hf
    | succ fuel =>
      have hpre : pPOWER.isPrefixOf ((a :: t') ++ pPOWER) = false :=
        isPrefixOf_append_pPOWER_eq_false h (by simp)
      rw [List.cons_append]
      simp only [replaceAllAux]
      rw [if_neg]
      · rw [ih fuel (by simpa using Nat.le_of_succ_le_succ hf)
          (hasOccur_cons_false h).2]
      · rintro ⟨hp, -⟩
        rw [List.cons_append] at hpre
        rw [hpre] at hp
        exact absurd hp (by simp)

theorem replaceAll_strip_pPOWER {t : List Char} (h : hasOccur pPOWER t = false) :
    replaceAll pPOWER [] (t ++ pPOWER) = t :=
  replaceAllAux_strip_pPOWER t (t ++ pPOWER).length (Nat.le_refl _) h

/-! ### Lemmas about the aggregation loop -/

/-- The code's first-token/second-token selection (lines 100-103) computes
exactly the specification's primary-feature rule. -/
theorem primaryFeature_eq_spec (fs : List Char) :
    primaryFeature fs = specPrimaryFeature fs := by
  unfold primaryFeature specPrimaryFeature
  cases hsp : pySplit ',' fs with
  | nil => simp
  | cons f rest =>
    by_cases hf : f = locSentinel
    · subst hf
      simp
      cases rest <;> simp
    · simp [hf]

/-- One successful loop iteration appends the node's name to exactly the
buckets the code addresses: on qualification, the bucket of the normalized
state (whose key is also recorded) and the per-(state, primary-feature)
bucket. -/
theorem processNode_char {gresMode : Bool} {fexp : BExp} {st : AggState} {n : NodeInfo}
    {st' : AggState} (h : processNode gresMode fexp st n = some st') :
    st'.stateKeys =
      (if qualifies gresMode fexp n = true then
        (if normState n.state ∈ st.stateKeys then st.stateKeys
         else st.stateKeys ++ [normState n.state])
       else st.stateKeys)
    ∧ (∀ s, st'.state2hl s =
        st.state2hl s ++
          (if qualifies gresMode fexp n = true ∧ normState n.state = s then [n.name]
           else []))
    ∧ (∀ s f, st'.state2f02hl s f =
        st.state2f02hl s f ++
          (if qualifies gresMode fexp n = true ∧ normState n.state = s
              ∧ primaryFeature n.features = some f then [n.name]
           else [])) := by
  unfold processNode at h
  unfold qualifies
  cases htok : tokensOf gresMode n with
  | none =>
    rw [htok] at h
    exact absurd h (by simp)
  | some ns =>
    rw [htok] at h
    dsimp only at h ⊢
    by_cases hq : nodeQualifies fexp ns = true
    · rw [if_pos hq] at h
      cases hpf : primaryFeature n.features with
      | none =>
        rw [hpf] at h
        exact absurd h (by simp)
      | some f0 =>
        rw [hpf] at h
        dsimp only at h
        cases gresMode with
        | true =>
          rw [if_pos rfl] at h
          cases h
          refine ⟨by simp [hq], fun s => ?_, fun s f => ?_⟩
          · by_cases hs : normState n.state = s
            · simp [hq, hs]
            · simp [hq, hs, Ne.symm hs]
          · by_cases hs : normState n.state = s
            · by_cases hf : f = f0
              · simp [hq, hs, hf]
              · simp [hq, hs, hf, Ne.symm hf]
            · simp [hq, hs, Ne.symm hs]
        | false =>
          rw [if_neg (by simp)] at h
          cases hg : getInfoGres n.gres with
          | none =>
            rw [hg] at h
            exact absurd h (by simp)
          | some gs =>
            rw [hg] at h
            cases h
            refine ⟨by simp [hq], fun s => ?_, fun s f => ?_⟩
            · by_cases hs : normState n.state = s
              · simp [hq, hs]
              · simp [hq, hs, Ne.symm hs]
            · by_cases hs : normState n.state = s
              · by_cases hf : f = f0
                · simp [hq, hs, hf]
                · simp [hq, hs, hf, Ne.symm hf]
              · simp [hq, hs, Ne.symm hs]
    · rw [if_neg hq] at h
      cases h
      refine ⟨by simp [hq], fun s => by simp [hq], fun s f => by simp [hq]⟩

/-- Folding the loop over a node list extends every state bucket by the
names of the qualifying nodes whose normalized state is its key, in
order. -/
theorem foldAgg_state2hl (gresMode : Bool) (fexp : BExp) :
    ∀ (nodes : List NodeInfo) (st agg : AggState),
      nodes.foldlM (processNode gresMode fexp) st = some agg →
      ∀ s, agg.state2hl s =
        st.state2hl s ++
          ((qualNodes gresMode fexp nodes).filter
            (fun n => decide (normState n.state = s))).map NodeInfo.name := by
  intro nodes
  induction nodes with
  | nil =>
    intro st agg h s
    rw [List.foldlM_nil] at h
    cases h
    simp [qualNodes]
  | cons n rest ih =>
    intro st agg h s
    rw [List.foldlM_cons] at h
    cases hstep : processNode gresMode fexp st n with
    | none =>
      rw [hstep] at h
      exact absurd h (by simp)
    | some st1 =>
      rw [hstep] at h
      have hchar := (processNode_char hstep).2.1
      rw [ih st1 agg h s, hchar s, List.append_assoc]
      congr 1
      unfold qualNodes
      by_cases hq : qualifies gresMode fexp n = true
      · by_cases hs : normState n.state = s
        · simp [List.filter_cons, hq, hs]
        · simp [List.filter_cons, hq, hs]
      · simp [List.filter_cons, hq]

/-- Folding the loop preserves distinctness of the recorded state keys,
and the recorded keys are exactly the initial ones plus the normalized
states of the qualifying nodes. -/
theorem foldAgg_stateKeys (gresMode : Bool) (fexp : BExp) :
    ∀ (nodes : List NodeInfo) (st agg : AggState),
      nodes.foldlM (processNode gresMode fexp) st = some agg →
      (st.stateKeys.Nodup → agg.stateKeys.Nodup)
      ∧ (∀ s, s ∈ agg.stateKeys ↔
          (s ∈ st.stateKeys
            ∨ s ∈ (qualNodes gresMode fexp nodes).map (fun n => normState n.state))) := by
  intro nodes
  induction nodes with
  | nil =>
    intro st agg h
    rw [List.foldlM_nil] at h
    cases h
    simp [qualNodes]
  | cons n rest ih =>
    intro st agg h
    rw [List.foldlM_cons] at h
    cases hstep : processNode gresMode fexp st n with
    | none =>
      rw [hstep] at h
      exact absurd h (by simp)
    | some st1 =>
      rw [hstep] at h
      have hchar := (processNode_char hstep).1
      obtain ⟨ihn, ihm⟩ := ih st1 agg h
      constructor
      · intro hnd
        apply ihn
        rw [hchar]
        by_cases hq : qualifies gresMode fexp n = true
        · by_cases hmem : normState n.state ∈ st.stateKeys
          · simp [hq, hmem, hnd]
          · simp [hq, hmem, List.nodup_append, hnd]
        · simp [hq, hnd]
      · intro s
        rw [ihm s, hchar]
        unfold qualNodes
        by_cases hq : qualifies gresMode fexp n = true
        · by_cases hmem : normState n.state ∈ st.stateKeys
          · by_cases hs : s = normState n.state
            · subst hs
              simp [hq, hmem, List.filter_cons]
            · simp [hq, hmem, List.filter_cons, hs]
          · by_cases hs : s = normState n.state
            · subst hs
              simp [hq, hmem, List.filter_cons]
            · simp [hq, hmem, List.filter_cons, hs]
        · simp [hq, List.filter_cons]

/-- Over a duplicate-free key list containing `a`, the indicator of `a`
sums to one. -/
theorem sum_indicator_one :
    ∀ {K : List (List Char)}, K.Nodup → ∀ {a : List Char}, a ∈ K →
      (K.map (fun s => if a = s then 1 else 0)).sum = 1 := by
  intro K
  induction K with
  | nil =>
    intro _ a ha
    simp at ha
  | cons k K ih =>
    intro hK a ha
    rw [List.map_cons, List.sum_cons]
    rcases List.mem_cons.mp ha with h | h
    · subst h
      rw [if_pos rfl]
      have hnot : a ∉ K := (List.nodup_cons.mp hK).1
      have hz : (K.map (fun s => if a = s then 1 else 0)).sum = 0 := by
        apply List.sum_eq_zero
        intro x hx
        simp only [List.mem_map] at hx
        obtain ⟨s, hs, rfl⟩ := hx
        rw [if_neg]
        intro he
        exact hnot (he ▸ hs)
      rw [hz]
    · have hk : a ≠ k := by
        rintro rfl
        exact (List.nodup_cons.mp hK).1 h
      rw [if_neg hk, ih (List.nodup_cons.mp hK).2 h]

/-- Summing the fiber sizes of the normalized-state map over any
duplicate-free key list covering all fibers counts every node exactly
once. -/
theorem sum_fiber_lengths :
    ∀ (l : List NodeInfo) (K : List (List Char)), K.Nodup →
      (∀ n ∈ l, normState n.state ∈ K) →
      (K.map (fun s =>
        (l.filter (fun n => decide (normState n.state = s))).length)).sum = l.length := by
  intro l
  induction l with
  | nil =>
    intro K _ _
    apply List.sum_eq_zero
    intro x hx
    simp only [List.mem_map] at hx
    obtain ⟨s, -, rfl⟩ := hx
    simp
  | cons n l ih =>
    intro K hK hcov
    have hcn : normState n.state ∈ K := hcov n (by simp)
    have hcl : ∀ m ∈ l, normState m.state ∈ K := fun m hm => hcov m (by simp [hm])
    have hpt : ∀ s, ((n :: l).filter (fun m => decide (normState m.state = s))).length =
        (l.filter (fun m => decide (normState m.state = s))).length
          + (if normState n.state = s then 1 else 0) := by
      intro s
      rw [List.filter_cons]
      by_cases hs : normState n.state = s <;> simp [hs]
    simp only [hpt]
    rw [List.sum_map_add, ih K hK hcl, sum_indicator_one hK hcn]
    simp

/-- The per-state buckets of a full run hold exactly the names of the
qualifying nodes of each normalized state, in snapshot order. -/
theorem runAgg_state2hl {gresMode : Bool} {fexp : BExp} {nodes : List NodeInfo}
    {agg : AggState} (h : runAgg gresMode fexp nodes = some agg) (s : List Char) :
    agg.state2hl s =
      ((qualNodes gresMode fexp nodes).filter
        (fun n => decide (normState n.state = s))).map NodeInfo.name := by
  have h' : nodes.foldlM (processNode gresMode fexp) initAgg = some agg := h
  have := foldAgg_state2hl gresMode fexp nodes initAgg agg h' s
  simpa [initAgg] using this

/-- The recorded state keys of a full run are duplicate-free and are
exactly the normalized states of the qualifying nodes. -/
theorem runAgg_stateKeys {gresMode : Bool} {fexp : BExp} {nodes : List NodeInfo}
    {agg : AggState} (h : runAgg gresMode fexp nodes = some agg) :
    agg.stateKeys.Nodup
    ∧ (∀ s, s ∈ agg.stateKeys ↔
        s ∈ (qualNodes gresMode fexp nodes).map (fun n => normState n.state)) := by
  have h' : nodes.foldlM (processNode gresMode fexp) initAgg = some agg := h
  obtain ⟨hn, hm⟩ := foldAgg_stateKeys gresMode fexp nodes initAgg agg h'
  refine ⟨hn (by simp [initAgg]), fun s => ?_⟩
  rw [hm s]
  simp [initAgg]

/-- Any filtered selection of qualifying nodes has duplicate-free names
whenever the snapshot's names are duplicate-free. -/
theorem bucket_names_nodup {gresMode : Bool} {fexp : BExp} {nodes : List NodeInfo}
    (hnames : (nodes.map NodeInfo.name).Nodup) (p : NodeInfo → Bool) :
    (((qualNodes gresMode fexp nodes).filter p).map NodeInfo.name).Nodup := by
  have hsub : List.Sublist (((qualNodes gresMode fexp nodes).filter p).map NodeInfo.name)
      (nodes.map NodeInfo.name) :=
    List.Sublist.map NodeInfo.name
      ((List.filter_sublist (qualNodes gresMode fexp nodes)).trans
        (List.filter_sublist nodes))
  exact List.Nodup.sublist hsub hnames

/-- What a successful bucket report contains: the post-`uniq` count and the
summary of the deduplicated member list. -/
theorem bucketReport_spec {env : Env} {countBy : Option CountBy}
    {hl : List (List Char)} {r : Nat × SumSt}
    (h : bucketReport env countBy hl = some r) :
    r.1 = hl.toFinset.card
    ∧ summarize_hl env countBy (uniq hl) = some r.2 := by
  unfold bucketReport at h
  cases hs : summarize_hl env countBy (uniq hl) with
  | none =>
    rw [hs] at h
    exact absurd h (by simp)
  | some sm =>
    rw [hs] at h
    cases h
    refine ⟨?_, rfl⟩
    show (uniq hl).length = hl.toFinset.card
    rw [uniq]
    exact (List.card_toFinset hl).symm

/-- The loop-with-break idiom selects the first matching descriptor when a
match exists. -/
theorem pickSel_first {prev : Option (List Char)} {l₁ l₂ : List (List Char)}
    {g : List Char}
    (h₁ : ∀ x ∈ l₁, gpuS.isPrefixOf x = false) (hg : gpuS.isPrefixOf g = true) :
    pickSel prev (l₁ ++ g :: l₂) = some g := by
  unfold pickSel
  have hfind : (l₁ ++ g :: l₂).find? (fun x => gpuS.isPrefixOf x) = some g := by
    induction l₁ with
    | nil =>
      rw [List.nil_append]
      exact List.find?_cons_of_pos _ hg
    | cons a l ih =>
      rw [List.cons_append, List.find?_cons_of_neg _ (by simp [h₁ a (by simp)])]
      exact ih (fun x hx => h₁ x (by simp [hx]))
  rw [hfind]

/-- `mapM` over `Option` succeeds when every element maps to `some`. -/
theorem mapM_isSome {α β : Type} (f : α → Option β) :
    ∀ (l : List α), (∀ a ∈ l, (f a).isSome = true) → (l.mapM f).isSome = true := by
  intro l
  induction l with
  | nil =>
    intro _
    rw [List.mapM_nil]
    simp
  | cons a l ih =>
    intro h
    rw [List.mapM_cons]
    have ha := h a (by simp)
    cases hfa : f a with
    | none => rw [hfa] at ha; simp at ha
    | some b =>
      have hl := ih (fun x hx => h x (by simp [hx]))
      cases hout : l.mapM f with
      | none => rw [hout] at hl; simp at hl
      | some bs => simp [hfa, hout]

/-! ### The claims -/

/-- C1: for every bucket (per-state, per-(state, primary-feature), and
per-(state, GPU-resource-type)), the reported node count equals the
cardinality of the set of distinct node identifiers added to that bucket,
and the CPU/GPU/sub-tally totals are computed over that deduplicated
member list; in particular a node added to the same bucket via multiple
GRES entries counts exactly once. -/
theorem C1_bucket_count_is_dedup_card (gresMode : Bool) (fexp : BExp)
    (nodes : List NodeInfo) (agg : AggState)
    (hrun : runAgg gresMode fexp nodes = some agg)
    (env : Env) (countBy : Option CountBy) :
    ∀ s f g,
      (∀ r, bucketReport env countBy (agg.state2hl s) = some r →
        r.1 = (agg.state2hl s).toFinset.card
          ∧ summarize_hl env countBy (uniq (agg.state2hl s)) = some r.2)
      ∧ (∀ r, bucketReport env countBy (agg.state2f02hl s f) = some r →
        r.1 = (agg.state2f02hl s f).toFinset.card
          ∧ summarize_hl env countBy (uniq (agg.state2f02hl s f)) = some r.2)
      ∧ (∀ r, bucketReport env countBy (agg.state2gres2hl s g) = some r →
        r.1 = (agg.state2gres2hl s g).toFinset.card
          ∧ summarize_hl env countBy (uniq (agg.state2gres2hl s g)) = some r.2) :=
  fun _ _ _ =>
    ⟨fun _ hr => bucketReport_spec hr,
     fun _ hr => bucketReport_spec hr,
     fun _ hr => bucketReport_spec hr⟩

/-- Witness for C1 on the sample snapshot: the reported count of the
`IDLE` state bucket is the cardinality of its distinct member set. -/
theorem C1_witness :
    report046.1 = (sampleAgg.state2hl idleS).toFinset.card :=
  ((C1_bucket_count_is_dedup_card false trueLit sampleNodes sampleAgg rfl
    envSample none idleS [] []).1 report046 rfl).1

/-- C2 (counterexample): a token whose text contains a literal escape
marker is corrupted by the escape/unescape round trip, so a node carrying
exactly that token does not qualify under the expression naming it, even
though the token is in the node's token set. -/
theorem C2_counterexample :
    unescTok (escTok weirdTok) ≠ weirdTok
    ∧ nodeQualifies (escapeExp (.var weirdTok)) [weirdTok] = false
    ∧ evalB (fun v => decide (v ∈ [weirdTok])) (.var weirdTok) = true := by
  refine ⟨by decide, by decide, by decide⟩

/-- C2 (amended): the evaluator binds each free variable to the membership
of its unescaped name, and for every expression all of whose variable
names survive the escape/unescape round trip — in particular any name not
containing a literal escape marker — qualification under the sanitized,
compiled expression coincides with evaluating the original expression
under true token-set membership. -/
theorem C2_escape_roundtrip_eval (E : BExp) (ns : List (List Char))
    (h : ∀ v ∈ E.vars, unescTok (escTok v) = v) :
    nodeQualifies (escapeExp E) ns = evalB (fun v => decide (v ∈ ns)) E := by
  induction E with
  | const b => rfl
  | var v =>
    show decide (unescTok (escTok v) ∈ ns) = decide (v ∈ ns)
    rw [h v (by simp [BExp.vars])]
  | band a b iha ihb =>
    show (nodeQualifies (escapeExp a) ns && nodeQualifies (escapeExp b) ns)
        = (evalB (fun v => decide (v ∈ ns)) a && evalB (fun v => decide (v ∈ ns)) b)
    rw [iha (fun v hv => h v (by simp [BExp.vars, hv])),
      ihb (fun v hv => h v (by simp [BExp.vars, hv]))]
  | bor a b iha ihb =>
    show (nodeQualifies (escapeExp a) ns || nodeQualifies (escapeExp b) ns)
        = (evalB (fun v => decide (v ∈ ns)) a || evalB (fun v => decide (v ∈ ns)) b)
    rw [iha (fun v hv => h v (by simp [BExp.vars, hv])),
      ihb (fun v hv => h v (by simp [BExp.vars, hv]))]
  | bnot a iha =>
    show (!nodeQualifies (escapeExp a) ns) = (!evalB (fun v => decide (v ∈ ns)) a)
    rw [iha (fun v hv => h v (by simp [BExp.vars, hv]))]

/-- Witness for C2 on the expression `v100-32gb and not gpu` against the
token set of the sample GPU node. -/
theorem C2_witness :
    nodeQualifies
        (escapeExp (.band (.var ("v100-32gb").toList) (.bnot (.var gpuS))))
        (getInfoFeatures (.str node046.features))
      = evalB (fun v => decide (v ∈ getInfoFeatures (.str node046.features)))
        (.band (.var ("v100-32gb").toList) (.bnot (.var gpuS))) :=
  C2_escape_roundtrip_eval _ _ (by decide)

/-- C3: when zero expression words are supplied on the command line, the
expression is treated as the constant-true literal (whose text the
sanitizer leaves untouched), so every node in the snapshot qualifies for
the report. -/
theorem C3_empty_expression_selects_all :
    effectiveFeatureString [] = trueS
    ∧ escTok trueS = trueS
    ∧ (∀ (gresMode : Bool) (n : NodeInfo) (ns : List (List Char)),
        tokensOf gresMode n = some ns → qualifies gresMode trueLit n = true) := by
  refine ⟨rfl, by decide, ?_⟩
  intro gresMode n ns htok
  unfold qualifies
  rw [htok]
  rfl

/-- Witness for C3: the sample CPU node qualifies under the default
expression in feature mode. -/
theorem C3_witness : qualifies false trueLit node5010 = true :=
  C3_empty_expression_selects_all.2.2 false node5010
    (getInfoFeatures (.str node5010.features)) rfl

/-- C4 (counterexample): the single-pass replacement can concatenate the
surrounding text into a fresh occurrence of the marker: a qualifying node
with raw state `+POW+POWERER` is bucketed under the key `+POWER`, which
still contains the powering-down marker after the suffix-stripping step. -/
theorem C4_counterexample :
    (runAgg false trueLit [nodePow]).map AggState.stateKeys
        = some [normState nodePow.state]
    ∧ normState nodePow.state = pPOWER
    ∧ hasOccur pPOWER (normState nodePow.state) = true := by
  refine ⟨by decide, by decide, by decide⟩

/-- C4 (amended): the normalized state never contains the reboot marker
`@`; and whenever the raw state is a base containing neither marker,
optionally followed by a single `+POWER` suffix — the shape of actual
scheduler states — the normalized state equals the base and contains
neither marker. (In general the single left-to-right removal pass can
recombine fragments into a fresh `+POWER` occurrence.) -/
theorem C4_normState_markers (s b : List Char)
    (hb : hasOccur pPOWER b = false) (hb2 : hasOccur ['@'] b = false) :
    hasOccur ['@'] (normState s) = false
    ∧ normState b = b
    ∧ normState (b ++ pPOWER) = b
    ∧ hasOccur pPOWER (normState (b ++ pPOWER)) = false := by
  have hat : ∀ x : List Char, hasOccur ['@'] (replaceAll ['@'] [] x) = false := by
    intro x
    rw [replaceAll_single]
    by_contra hcon
    rw [Bool.not_eq_false] at hcon
    have := (hasOccur_single '@' _).mp hcon
    simp at this
  have hfb : List.filter (fun x => x ≠ '@') b = b := by
    rw [List.filter_eq_self]
    intro a ha
    simp only [ne_eq, decide_eq_true_eq, decide_not, Bool.not_eq_true']
    rw [decide_eq_false_iff_not]
    intro hae
    rw [hae] at ha
    rw [(hasOccur_single '@' b).mpr ha] at hb2
    exact absurd hb2 (by simp)
  have hnb : normState b = b := by
    unfold normState
    rw [replaceAll_of_no_occur _ hb, replaceAll_single, hfb]
  have hnbp : normState (b ++ pPOWER) = b := by
    unfold normState
    rw [replaceAll_strip_pPOWER hb, replaceAll_single, hfb]
  exact ⟨hat _, hnb, hnbp, by rw [hnbp]; exact hb⟩

/-- Witness for C4 on the sample raw states `+PO@WER` (for the
unconditional `@` part) and `DOWN+DRAIN` with a `+POWER` suffix. -/
theorem C4_witness :
    hasOccur ['@'] (normState ("+PO@WER").toList) = false
    ∧ normState ("DOWN+DRAIN").toList = ("DOWN+DRAIN").toList
    ∧ normState (("DOWN+DRAIN").toList ++ pPOWER) = ("DOWN+DRAIN").toList
    ∧ hasOccur pPOWER (normState (("DOWN+DRAIN").toList ++ pPOWER)) = false :=
  C4_normState_markers ("+PO@WER").toList ("DOWN+DRAIN").toList
    (by decide) (by decide)

/-- C5: for every qualifying node, the key of its per-(state,
primary-feature) bucket is the first comma-separated token of the node's
raw feature string, unless that first token equals the location sentinel,
in which case it is the second token: one loop step appends the node's
name to exactly the bucket keyed by its normalized state and that
primary-feature rule. -/
theorem C5_primary_feature_bucket (gresMode : Bool) (fexp : BExp) (st : AggState)
    (n : NodeInfo) (st' : AggState)
    (hstep : processNode gresMode fexp st n = some st')
    (hq : qualifies gresMode fexp n = true) :
    ∀ s f, st'.state2f02hl s f =
      st.state2f02hl s f ++
        (if s = normState n.state ∧ specPrimaryFeature n.features = some f
         then [n.name] else []) := by
  intro s f
  rw [(processNode_char hstep).2.2 s f, ← primaryFeature_eq_spec]
  by_cases hs : normState n.state = s
  · simp [hq, hs]
  · simp [hq, hs, Ne.symm hs]

/-- Witness for C5: processing the sample GPU node places its name into
the bucket keyed by state `IDLE` and its first feature token `gpu`. -/
theorem C5_witness :
    st046.state2f02hl idleS gpuS
      = initAgg.state2f02hl idleS gpuS ++ [node046.name] := by
  have := C5_primary_feature_bucket false trueLit initAgg node046 st046 rfl
    (by decide) idleS gpuS
  rw [this, if_pos (by exact ⟨by decide, by decide⟩)]

/-- The sub-tally step changes no field other than the sub-tally map. -/
theorem cbStep_fields (env : Env) (countBy : Option CountBy) (st : SumSt)
    (h : List Char) :
    (cbStep env countBy st h).cpus = st.cpus
    ∧ (cbStep env countBy st h).cpus_allocated = st.cpus_allocated
    ∧ (cbStep env countBy st h).gpus = st.gpus
    ∧ (cbStep env countBy st h).gpus_allocated = st.gpus_allocated
    ∧ (cbStep env countBy st h).prevGres = st.prevGres
    ∧ (cbStep env countBy st h).prevGresUsed = st.prevGresUsed
    ∧ (cbStep env countBy st h).errlog = st.errlog := by
  cases countBy <;> exact ⟨rfl, rfl, rfl, rfl, rfl, rfl, rfl⟩

/-- Full description of a host step on a node that does not pass the
GPU-presence test: only the CPU totals (and the sub-tally) move. -/
theorem processHost_no_gate_eq {env : Env} {countBy : Option CountBy} {st : SumSt}
    {h : List Char} {node : NodeInfo}
    (hnode : env.nodesMap h = some node) (hgate : gpuGate node = false) :
    processHost env countBy st h = some
      { cbStep env countBy st h with
        cpus := (cbStep env countBy st h).cpus + node.cpus
        cpus_allocated := (cbStep env countBy st h).cpus_allocated + node.alloc_cpus } := by
  unfold processHost
  rw [hnode]
  dsimp only
  rw [if_neg (by simp [hgate])]

/-- Full description of a host step on a node that passes the GPU-presence
test, when the total-side descriptor selection and parse succeed: CPU
totals move, the parsed total is added, and the allocated side adds the
parsed in-use count or — on a failed selection or parse — adds nothing
and logs the host. -/
theorem processHost_gpu_eq {env : Env} (countBy : Option CountBy) {st : SumSt}
    {h : List Char} {node : NodeInfo} {g : List Char} {k : Nat}
    (hnode : env.nodesMap h = some node) (hgate : gpuGate node = true)
    (hg : pickSel st.prevGres node.gres = some g)
    (hk : gpuSearch g = some k) :
    processHost env countBy st h = some
      { cbStep env countBy st h with
        cpus := (cbStep env countBy st h).cpus + node.cpus
        cpus_allocated := (cbStep env countBy st h).cpus_allocated + node.alloc_cpus
        gpus := st.gpus + k
        gpus_allocated := st.gpus_allocated +
          (match pickSel st.prevGresUsed node.gres_used with
           | some gu => (gpuSearch gu).getD 0
           | none => 0)
        prevGres := some g
        prevGresUsed := pickSel st.prevGresUsed node.gres_used
        errlog := st.errlog ++
          (match pickSel st.prevGresUsed node.gres_used with
           | some gu => if (gpuSearch gu).isSome then [] else [h]
           | none => [h]) } := by
  obtain ⟨hc1, hc2, hc3, hc4, hc5, hc6, hc7⟩ := cbStep_fields env countBy st h
  unfold processHost
  rw [hnode]
  dsimp only
  rw [if_pos hgate]
  rw [hc5, hc6, hg]
  dsimp only
  rw [hk]
  dsimp only
  cases hgu : pickSel st.prevGresUsed node.gres_used with
  | none =>
    dsimp only
    congr 1
    cases countBy with
    | none => simp [cbStep, hc3, hc7]
    | some cb => simp [cbStep, hc3, hc7]
  | some gu =>
    dsimp only
    cases hku : gpuSearch gu with
    | none =>
      dsimp only
      congr 1
      cases countBy with
      | none => simp [cbStep]
      | some cb => simp [cbStep]
    | some ku =>
      dsimp only
      congr 1
      cases countBy with
      | none => simp [cbStep]
      | some cb => simp [cbStep]

/-- C6 (counterexample): the GPU-presence test is a substring test on the
raw feature string, not membership in the node's feature token set: a node
whose only feature token is `highmem` (which contains `gh`) contributes
its parsed GRES counts to the bucket's GPU total and GPU allocated, even
though none of the tokens `gpu`, `amdgpu`, `gh` is in its feature set. -/
theorem C6_counterexample :
    gpuS ∉ getInfoFeatures (.str nodeHigh.features)
    ∧ amdgpuS ∉ getInfoFeatures (.str nodeHigh.features)
    ∧ ghS ∉ getInfoFeatures (.str nodeHigh.features)
    ∧ (summarize_hl envSample none [nodeHigh.name]).map SumSt.gpus = some 3
    ∧ (summarize_hl envSample none [nodeHigh.name]).map SumSt.gpus_allocated = some 1 :=
  ⟨by decide, by decide, by decide, by decide, by decide⟩

/-- C6 (amended): a node in a bucket contributes to the bucket's GPU total
and GPU allocated counts iff its raw feature string contains one of
`gpu`, `amdgpu`, `gh` as a substring (Python `in` on the raw string): when
the substring test fails the GPU totals are untouched, and when it holds
the parsed count of the selected descriptor is added. -/
theorem C6_gate_is_substring (env : Env) (countBy : Option CountBy) (st : SumSt)
    (h : List Char) (node : NodeInfo)
    (hnode : env.nodesMap h = some node) :
    gpuGate node
      = (hasOccur gpuS node.features || hasOccur amdgpuS node.features
          || hasOccur ghS node.features)
    ∧ (gpuGate node = false → ∀ st', processHost env countBy st h = some st' →
        st'.gpus = st.gpus ∧ st'.gpus_allocated = st.gpus_allocated)
    ∧ (gpuGate node = true → ∀ (g : List Char) (k : Nat),
        pickSel st.prevGres node.gres = some g → gpuSearch g = some k →
        ∀ st', processHost env countBy st h = some st' →
          st'.gpus = st.gpus + k) := by
  obtain ⟨hc1, hc2, hc3, hc4, hc5, hc6, hc7⟩ := cbStep_fields env countBy st h
  refine ⟨rfl, ?_, ?_⟩
  · intro hgate st' hst
    rw [processHost_no_gate_eq hnode hgate] at hst
    cases hst
    exact ⟨hc3, hc4⟩
  · intro hgate g k hg hk st' hst
    rw [processHost_gpu_eq countBy hnode hgate hg hk] at hst
    cases hst
    rfl

/-- Witness for C6 on the sample GPU node, whose feature string contains
`gpu`: its parsed descriptor count 2 is added to the GPU total. -/
theorem C6_witness : sum046.gpus = initSum.gpus + 2 :=
  (C6_gate_is_substring envSample none initSum node046.name node046 rfl).2.2
    (by decide) ("gpu:v100-16gb:2(S:0-1)").toList 2 (by decide) (by decide)
    sum046 rfl

/-- C7: for every bucket member node whose features signal GPU presence,
the node's contribution to the bucket's GPU total is the trailing count
parsed via the pattern `gpu:<type>:<digits>` from the first descriptor in
the node's GRES list that is GPU-typed (ordered by list position), and its
contribution to GPU allocated is parsed the same way from the first
GPU-typed descriptor in the node's GRES-in-use list. -/
theorem C7_first_gpu_descriptor (env : Env) (countBy : Option CountBy) (st : SumSt)
    (h : List Char) (node : NodeInfo) (l₁ l₂ m₁ m₂ : List (List Char))
    (g gu : List Char) (k ku : Nat)
    (hnode : env.nodesMap h = some node)
    (hgate : gpuGate node = true)
    (hgres : node.gres = l₁ ++ g :: l₂)
    (hl₁ : ∀ x ∈ l₁, gpuS.isPrefixOf x = false)
    (hgp : gpuS.isPrefixOf g = true)
    (hgresu : node.gres_used = m₁ ++ gu :: m₂)
    (hm₁ : ∀ x ∈ m₁, gpuS.isPrefixOf x = false)
    (hgup : gpuS.isPrefixOf gu = true)
    (hk : gpuSearch g = some k)
    (hku : gpuSearch gu = some ku) :
    (processHost env countBy st h).isSome = true
    ∧ ∀ st', processHost env countBy st h = some st' →
        st'.gpus = st.gpus + k
        ∧ st'.gpus_allocated = st.gpus_allocated + ku := by
  have hpick : pickSel st.prevGres node.gres = some g := by
    rw [hgres]
    exact pickSel_first hl₁ hgp
  have hpicku : pickSel st.prevGresUsed node.gres_used = some gu := by
    rw [hgresu]
    exact pickSel_first hm₁ hgup
  have heq := processHost_gpu_eq countBy hnode hgate hpick hk
  constructor
  · rw [heq]
    rfl
  · intro st' hst
    rw [heq] at hst
    cases hst
    exact ⟨rfl, by simp [hpicku, hku]⟩

/-- Witness for C7 on the sample GPU node: GPU total contribution 2 from
`gpu:v100-16gb:2(S:0-1)` and GPU allocated contribution 0 from
`gpu:v100-16gb:0(IDX:N/A)`. -/
theorem C7_witness :
    sum046.gpus = initSum.gpus + 2
    ∧ sum046.gpus_allocated = initSum.gpus_allocated + 0 :=
  (C7_first_gpu_descriptor envSample none initSum node046.name node046
    [] [] [] [] ("gpu:v100-16gb:2(S:0-1)").toList ("gpu:v100-16gb:0(IDX:N/A)").toList
    2 0 rfl (by decide) rfl (by simp) (by decide) rfl (by simp) (by decide)
    (by decide) (by decide)).2 sum046 rfl

/-- C8: if the GRES-in-use descriptor selected for a GPU-signalling node
fails the `gpu:<type>:<digits>` pattern, the run does not abort: a
diagnostic identifying the node is written to standard error, the node
contributes 0 to the bucket's GPU-allocated count, and the node's CPU
capacity and CPU-allocated counts are still included in the bucket's
totals. -/
theorem C8_allocated_parse_failure_recovers (env : Env) (countBy : Option CountBy)
    (st : SumSt) (h : List Char) (node : NodeInfo) (g gu : List Char) (k : Nat)
    (hnode : env.nodesMap h = some node)
    (hgate : gpuGate node = true)
    (hg : pickSel st.prevGres node.gres = some g)
    (hk : gpuSearch g = some k)
    (hgu : pickSel st.prevGresUsed node.gres_used = some gu)
    (hku : gpuSearch gu = none) :
    (processHost env countBy st h).isSome = true
    ∧ ∀ st', processHost env countBy st h = some st' →
        st'.gpus_allocated = st.gpus_allocated
        ∧ st'.cpus = st.cpus + node.cpus
        ∧ st'.cpus_allocated = st.cpus_allocated + node.alloc_cpus
        ∧ st'.errlog = st.errlog ++ [h]
        ∧ st'.gpus = st.gpus + k := by
  obtain ⟨hc1, hc2, hc3, hc4, hc5, hc6, hc7⟩ := cbStep_fields env countBy st h
  have heq := processHost_gpu_eq countBy hnode hgate hg hk
  constructor
  · rw [heq]
    rfl
  · intro st' hst
    rw [heq] at hst
    cases hst
    refine ⟨by simp [hgu, hku], ?_, ?_, by simp [hgu, hku], rfl⟩
    · show (cbStep env countBy st h).cpus + node.cpus = st.cpus + node.cpus
      rw [hc1]
    · show (cbStep env countBy st h).cpus_allocated + node.alloc_cpus
          = st.cpus_allocated + node.alloc_cpus
      rw [hc2]

/-- Witness for C8 on a GPU-signalling node whose in-use descriptor
`gpu:0` fails the count pattern: no abort, a logged diagnostic, zero
GPU-allocated contribution, CPU totals still included. -/
theorem C8_witness :
    sumSkip.gpus_allocated = initSum.gpus_allocated
    ∧ sumSkip.cpus = initSum.cpus + nodeSkip.cpus
    ∧ sumSkip.cpus_allocated = initSum.cpus_allocated + nodeSkip.alloc_cpus
    ∧ sumSkip.errlog = initSum.errlog ++ [nodeSkip.name]
    ∧ sumSkip.gpus = initSum.gpus + 4 :=
  (C8_allocated_parse_failure_recovers envSample none initSum nodeSkip.name nodeSkip
    ("gpu:v100s-32gb:4").toList ("gpu:0").toList 4 rfl (by decide) (by decide)
    (by decide) (by decide) (by decide)).2 sumSkip rfl

/-- C9 (counterexample): a GRES descriptor fragment containing no colon
makes the GRES extractor raise (`g.split(':', 2)[1]` is an out-of-range
index), modelled by `none`; extraction does not degrade to an empty
result. -/
theorem C9_counterexample : getInfoGres [badGres] = none := by decide

/-- C9 (amended): the feature extractor is total — a missing field yields
the empty token sequence and a bare string is handled exactly like the
one-element list — and the GRES extractor returns an empty result on an
empty descriptor list and succeeds whenever every comma-separated fragment
of every descriptor contains at least one colon; a colon-free fragment,
however, raises an index error. -/
theorem C9_extractors_total (lgl : List (List Char))
    (h : ∀ gl ∈ lgl, ∀ g ∈ pySplit ',' gl, 2 ≤ (pySplit ':' g).length) :
    (getInfoGres lgl).isSome = true
    ∧ getInfoGres [] = some []
    ∧ getInfoFeatures .absent = []
    ∧ (∀ s, getInfoFeatures (.str s) = getInfoFeatures (.list [s])) := by
  refine ⟨?_, rfl, rfl, fun s => by simp [getInfoFeatures]⟩
  unfold getInfoGres
  by_cases hl : lgl = []
  · simp [hl]
  · rw [if_neg hl]
    apply mapM_isSome
    intro g hg
    simp only [List.mem_flatMap] at hg
    obtain ⟨gl, hgl, hginner⟩ := hg
    have h2 := h gl hgl g hginner
    cases hsp : pySplit ':' g with
    | nil =>
      rw [hsp] at h2
      simp at h2
    | cons a rest =>
      cases rest with
      | nil =>
        rw [hsp] at h2
        simp at h2
      | cons b rest2 => simp [hsp]

/-- Witness for C9 on a well-formed GRES list. -/
theorem C9_witness : (getInfoGres goodGresList).isSome = true :=
  (C9_extractors_total goodGresList (by decide)).1

/-- In a duplicate-free list, a member occurs exactly once. -/
theorem count_eq_one_of_nodup_mem :
    ∀ {l : List (List Char)}, l.Nodup → ∀ {a : List Char}, a ∈ l → l.count a = 1 := by
  intro l
  induction l with
  | nil =>
    intro _ a ha
    simp at ha
  | cons b l ih =>
    intro hnd a ha
    rcases List.mem_cons.mp ha with h | h
    · subst h
      rw [List.count_cons_self,
        List.count_eq_zero_of_not_mem (List.nodup_cons.mp hnd).1]
    · have hab : a ≠ b := by
        rintro rfl
        exact (List.nodup_cons.mp hnd).1 h
      rw [List.count_cons_of_ne hab, ih (List.nodup_cons.mp hnd).2 h]

/-- C10: every qualifying node is inserted into exactly one per-state
bucket — the one keyed by its own normalized state — and exactly once into
it; consequently the emitted grand total node count (by definition the sum
over recorded states of the deduplicated per-state node counts) equals the
number of distinct qualifying nodes. Node names are assumed distinct, as
they are keys of the scheduler's node dictionary. -/
theorem C10_grand_total (gresMode : Bool) (fexp : BExp) (nodes : List NodeInfo)
    (agg : AggState) (hrun : runAgg gresMode fexp nodes = some agg)
    (hnames : (nodes.map NodeInfo.name).Nodup) :
    (∀ n ∈ nodes, qualifies gresMode fexp n = true →
      ∀ s, (agg.state2hl s).count n.name = if s = normState n.state then 1 else 0)
    ∧ totalNodes agg
        = ((qualNodes gresMode fexp nodes).map NodeInfo.name).toFinset.card := by
  have hbucket : ∀ s, agg.state2hl s =
      ((qualNodes gresMode fexp nodes).filter
        (fun n => decide (normState n.state = s))).map NodeInfo.name :=
    fun s => runAgg_state2hl hrun s
  obtain ⟨hKnd, hKmem⟩ := runAgg_stateKeys hrun
  have hBnodup : ∀ s, (((qualNodes gresMode fexp nodes).filter
      (fun n => decide (normState n.state = s))).map NodeInfo.name).Nodup :=
    fun s => bucket_names_nodup hnames _
  have hQnodup : ((qualNodes gresMode fexp nodes).map NodeInfo.name).Nodup := by
    have hsub : List.Sublist ((qualNodes gresMode fexp nodes).map NodeInfo.name)
        (nodes.map NodeInfo.name) :=
      List.Sublist.map NodeInfo.name (List.filter_sublist nodes)
    exact List.Nodup.sublist hsub hnames
  constructor
  · intro n hn hq s
    rw [hbucket s]
    by_cases hs : s = normState n.state
    · rw [if_pos hs]
      apply count_eq_one_of_nodup_mem (hBnodup s)
      apply List.mem_map.mpr
      refine ⟨n, List.mem_filter.mpr ⟨List.mem_filter.mpr ⟨hn, hq⟩, by simp [hs]⟩, rfl⟩
    · rw [if_neg hs]
      rw [List.count_eq_zero]
      intro hmem
      simp only [List.mem_map] at hmem
      obtain ⟨n', hn', hname⟩ := hmem
      obtain ⟨hn'q, hn'dec⟩ := List.mem_filter.mp hn'
      obtain ⟨hn'mem, -⟩ := List.mem_filter.mp hn'q
      have heq : n' = n := List.inj_on_of_nodup_map hnames hn'mem hn hname
      subst heq
      rw [decide_eq_true_eq] at hn'dec
      exact hs hn'dec.symm
  · unfold totalNodes
    have huq : ∀ s, uniq (agg.state2hl s) = agg.state2hl s := by
      intro s
      rw [hbucket s, uniq]
      exact List.dedup_eq_self.mpr (hBnodup s)
    simp only [huq]
    simp only [hbucket, List.length_map]
    rw [List.toFinset_card_of_nodup hQnodup, List.length_map]
    apply sum_fiber_lengths _ _ hKnd
    intro n hn
    exact (hKmem _).mpr (List.mem_map.mpr ⟨n, hn, rfl⟩)

/-- Witness for C10 on the sample snapshot. -/
theorem C10_witness :
    totalNodes sampleAgg
      = ((qualNodes false trueLit sampleNodes).map NodeInfo.name).toFinset.card :=
  (C10_grand_total false trueLit sampleNodes sampleAgg rfl (by decide)).2

end FeatureReport
